import Mathlib

/-!
Verification development for the polygon tools of the atools repository
(src/util/polygontools.cpp).  The code is shallowly embedded over exact
rational coordinates: points, segments and rectangles are records of `ℚ`,
and every function of the source file is translated into an executable
Lean definition with the same name.

Two measures of a segment, its Euclidean length (`QLineF::length`) and its
converted direction angle (`atools::geo::angleFromQt(QLineF::angle())`),
are irrational functions of the coordinates and live outside the reviewed
sources (Qt and geo/calculations.h).  Following the specification, which
treats them as leaf geometry primitives, the pipeline is parameterised by
two functions `angleOf lengthOf : Line → ℚ`; concrete instantiations that
agree with the true geometry on axis-aligned segments are provided for the
test inputs.
-/

namespace atools

/-- A 2-D point (QPointF) with exact rational coordinates. -/
structure Point where
  x : ℚ
  y : ℚ
deriving DecidableEq, Repr

/-- A line segment (QLineF) between two points. -/
structure Line where
  p1 : Point
  p2 : Point
deriving DecidableEq, Repr

/-- A rectangle (QRectF): position `x`,`y` and extents `w`,`h`. -/
structure Rect where
  x : ℚ
  y : ℚ
  w : ℚ
  h : ℚ
deriving DecidableEq, Repr

/-- QRectF::contains(QPointF): the point is inside or on the edge of the
normalized rectangle; a rectangle that is empty in either axis contains
nothing. -/
def Rect.containsPoint (r : Rect) (p : Point) : Bool :=
  let l := if r.w < 0 then r.x + r.w else r.x
  let rr := if r.w < 0 then r.x else r.x + r.w
  if l = rr then false
  else if p.x < l ∨ rr < p.x then false
  else
    let t := if r.h < 0 then r.y + r.h else r.y
    let b := if r.h < 0 then r.y else r.y + r.h
    if t = b then false
    else if p.y < t ∨ b < p.y then false
    else true

/-- QRectF::topLeft. -/
def Rect.topLeft (r : Rect) : Point := ⟨r.x, r.y⟩

/-- QRectF::topRight. -/
def Rect.topRight (r : Rect) : Point := ⟨r.x + r.w, r.y⟩

/-- QRectF::bottomRight. -/
def Rect.bottomRight (r : Rect) : Point := ⟨r.x + r.w, r.y + r.h⟩

/-- QRectF::bottomLeft. -/
def Rect.bottomLeft (r : Rect) : Point := ⟨r.x, r.y + r.h⟩

/-- QLineF::intersects(other) == QLineF::BoundedIntersection: the two
infinite carrier lines intersect (non-zero denominator) and the
intersection parameters along both segments lie in [0, 1]. -/
def boundedIntersects (l1 l2 : Line) : Bool :=
  let ax := l1.p2.x - l1.p1.x
  let ay := l1.p2.y - l1.p1.y
  let bx := l2.p1.x - l2.p2.x
  let bq := l2.p1.y - l2.p2.y
  let cx := l1.p1.x - l2.p1.x
  let cy := l1.p1.y - l2.p1.y
  let denom := ay * bx - ax * bq
  if denom = 0 then false
  else
    let na := (bq * cx - bx * cy) / denom
    if na < 0 ∨ 1 < na then false
    else
      let nb := (ax * cy - ay * cx) / denom
      if nb < 0 ∨ 1 < nb then false
      else true

/-- Modelled from the spec: `atools::geo::angleAbsDiff` (geo/calculations.h
is not part of the reviewed sources).  The absolute angular difference,
shortest arc, always non-negative and capped at 180 for angles in
[0, 360). -/
def angleAbsDiff (a1 a2 : ℚ) : ℚ :=
  let d := |a1 - a2|
  if 180 < d then 360 - d else d

/-- Modelled from the spec: `atools::wrapIndex` (atools.h is not part of
the reviewed sources); the spec mandates plain modular `(i mod n)` index
arithmetic, which agrees with the source helper on all indices the polygon
code produces. -/
def wrapIndex (index size : Int) : Int := index % size

/-- QPolygonF/QList element access `polygon.at(i)`; every use in the
source is in bounds, out-of-range indices default to the origin. -/
def atIdx (ps : List Point) (i : Int) : Point := ps.getD i.toNat ⟨0, 0⟩

/-- QPolygonF::isClosed: non-empty and first vertex equal to the last. -/
def isClosed (p : List Point) : Bool :=
  match p with
  | [] => false
  | a :: rest => decide (a = List.getLastD rest a)

/-- Vertex count after closure adjustment: the size used by
getPolygonOrientation and getLongPolygonLines after skipping the
duplicated last vertex of a closed polygon. -/
def effectiveSize (p : List Point) : Nat :=
  if isClosed p then p.length - 1 else p.length

/-- Orientation result of getPolygonOrientation. -/
inductive Orientation where
  | CLOCKWISE
  | COUNTERCLOCKWISE
  | INVALID_TOO_SMALL
deriving DecidableEq, Repr

/-- Annotated edge record (class PolygonLineDistance): length, converted
angle, spanned vertex indices (both -1 when invisible) and the segment. -/
structure PolygonLineDistance where
  length : ℚ
  angle : ℚ
  indexFrom : Int
  indexTo : Int
  line : Line
deriving DecidableEq, Repr

/-- Modelled from the spec: PolygonLineDistance::isValid (declared in
polygontools.h, which is not part of the reviewed sources); the spec fixes
the invariant that an edge is valid iff `indexFrom >= 0`. -/
def PolygonLineDistance.isValid (ld : PolygonLineDistance) : Bool :=
  decide (0 ≤ ld.indexFrom)

/-- PolygonLineDistance::hasSameAngle: angular difference strictly below
maxAngle. -/
def PolygonLineDistance.hasSameAngle (ld other : PolygonLineDistance)
    (maxAngle : ℚ) : Bool :=
  decide (angleAbsDiff ld.angle other.angle < maxAngle)

/-- PolygonLineDistance::isLineIntersectingRect: either endpoint inside
the rectangle or a bounded intersection with one of its four boundary
segments. -/
def isLineIntersectingRect (line : Line) (rect : Rect) : Bool :=
  rect.containsPoint line.p1 || rect.containsPoint line.p2 ||
  boundedIntersects line ⟨rect.topLeft, rect.topRight⟩ ||
  boundedIntersects line ⟨rect.topRight, rect.bottomRight⟩ ||
  boundedIntersects line ⟨rect.bottomRight, rect.bottomLeft⟩ ||
  boundedIntersects line ⟨rect.bottomLeft, rect.topLeft⟩

/-- PolygonLineDistance::isLineInsideRect: both endpoints inside. -/
def isLineInsideRect (line : Line) (rect : Rect) : Bool :=
  rect.containsPoint line.p1 && rect.containsPoint line.p2

/-- One iteration of the scan in findCornerPoint.  The state is the best
index together with `some (minY, minXAtMinY)` once a candidate exists
(the double max sentinels of the source accept the first point
unconditionally, which the `none` state models).  The second guard keeps
the source's slip of comparing `point.y()` (not `point.x()`) against
`minXAtMinY`.  The default `almostEqual` tie test, with machine epsilon on
these exact inputs, is equality. -/
def cornerStep (polygon : List Point) (st : Int × Option (ℚ × ℚ)) (i : Nat) :
    Int × Option (ℚ × ℚ) :=
  let p := atIdx polygon (i : Int)
  match st.2 with
  | none => ((i : Int), some (p.y, p.x))
  | some (minY, minXAtMinY) =>
    if minY < p.y then st
    else if p.y = minY ∧ minXAtMinY ≤ p.y then st
    else ((i : Int), some (p.y, p.x))

/-- findCornerPoint: scan the first `size` vertices for the minimum-y
point (see cornerStep for the tie handling). -/
def findCornerPoint (polygon : List Point) (size : Nat) : Int :=
  ((List.range size).foldl (cornerStep polygon) (-1, none)).1

/-- getPolygonOrientation: orientation from the sign of the 3x3
homogeneous determinant of the corner vertex and its neighbours. -/
def getPolygonOrientation (polygon : List Point) : Orientation :=
  let size := effectiveSize polygon
  if size ≤ 2 then .INVALID_TOO_SMALL
  else
    let minPt := findCornerPoint polygon size
    let a := atIdx polygon (wrapIndex (minPt - 1) (size : Int))
    let b := atIdx polygon minPt
    let c := atIdx polygon (wrapIndex (minPt + 1) (size : Int))
    let det := (b.x * c.y + a.x * b.y + a.y * c.x) -
               (a.y * b.x + b.y * c.x + a.x * c.y)
    if 0 < det then .CLOCKWISE else .COUNTERCLOCKWISE

/-- Loop body of PolygonLineDistance::createPolyLines, as structural
recursion over the remaining lines.  `i` is the current index and
`prevAngle` the angle of the previous output entry: the source's
`distLines` receives an entry on every iteration, so it is non-empty
exactly from the second iteration on and its last entry's angle is the
previous line's angle. -/
def createPolyLinesGo (screenRect : Rect) (checkIntersect wantStdDev : Bool)
    (angleOf lengthOf : Line → ℚ) :
    List Line → Nat → Option ℚ → List ℚ × List PolygonLineDistance
  | [], _, _ => ([], [])
  | line :: rest, i, prevAngle =>
    let angle := angleOf line
    let headAngles : List ℚ :=
      match prevAngle with
      | some prev => if wantStdDev then [angleAbsDiff angle prev] else []
      | none => []
    let entry : PolygonLineDistance :=
      if (if checkIntersect then isLineIntersectingRect line screenRect
          else isLineInsideRect line screenRect) then
        ⟨lengthOf line, angle, (i : Int), (i : Int) + 1, line⟩
      else
        ⟨0, angle, -1, -1, line⟩
    let tail := createPolyLinesGo screenRect checkIntersect wantStdDev
      angleOf lengthOf rest (i + 1) (some angle)
    (headAngles ++ tail.1, entry :: tail.2)

/-- PolygonLineDistance::createPolyLines: annotate the first `size` lines
and, when requested, compute the angle statistic (the source initialises
the slot to 0, sums the relative angles, divides by their count for the
average and accumulates the squared deviations). -/
def createPolyLines (lines : List Line) (screenRect : Rect) (size : Nat)
    (checkIntersect wantStdDev : Bool) (angleOf lengthOf : Line → ℚ) :
    List PolygonLineDistance × Option ℚ :=
  let r := createPolyLinesGo screenRect checkIntersect wantStdDev
    angleOf lengthOf (lines.take size) 0 none
  let angles := r.1
  let out : Option ℚ :=
    if wantStdDev then
      let sum := angles.foldl (fun acc a => acc + a) 0
      let avg := sum / (angles.length : ℚ)
      some (angles.foldl (fun acc a => acc + (a - avg) * (a - avg)) 0)
    else none
  (r.2, out)

/-- Scan of getLongPolygonLines for the first valid entry, returning its
index and the entry itself. -/
def firstValid : List PolygonLineDistance → Nat →
    Option (Nat × PolygonLineDistance)
  | [], _ => none
  | e :: rest, i => if e.isValid then some (i, e) else firstValid rest (i + 1)

/-- Mutation `consecutiveLines.last()` of the source: rewrite the last
element of a non-empty list. -/
def setLast (f : PolygonLineDistance → PolygonLineDistance) :
    List PolygonLineDistance → List PolygonLineDistance
  | [] => []
  | [a] => [f a]
  | a :: b :: rest => a :: setLast f (b :: rest)

/-- One iteration of the combining loop of getLongPolygonLines: skip
invalid entries; extend the accumulating last entry when the angles agree
within maxAngle (end index becomes `i + 1`, lengths add up, the endpoint
moves), otherwise append the entry as a new group. -/
def mergeStep (maxAngle : ℚ) (acc : List PolygonLineDistance)
    (ie : Nat × PolygonLineDistance) : List PolygonLineDistance :=
  let i := ie.1
  let cur := ie.2
  if !cur.isValid then acc
  else
    match acc.getLast? with
    | none => acc ++ [cur]
    | some lastLD =>
      if cur.hasSameAngle lastLD maxAngle then
        setLast (fun l => { l with
          indexTo := (i : Int) + 1,
          length := l.length + cur.length,
          line := ⟨l.line.p1, cur.line.p2⟩ }) acc
      else acc ++ [cur]

/-- Combining block of getLongPolygonLines: find the first valid entry,
seed the output with it and fold the remaining entries through
mergeStep.  When no entry is valid the list is returned unchanged.  The
source scans indices 0 to size-1; at this point distLines has exactly
size entries (one per edge), so the scan covers the whole list. -/
def mergeLines (distLines : List PolygonLineDistance) (maxAngle : ℚ) :
    List PolygonLineDistance :=
  match firstValid distLines 0 with
  | none => distLines
  | some (i, e) =>
    ((distLines.enum).drop (i + 1)).foldl (mergeStep maxAngle) [e]

/-- Sort comparator of getLongPolygonLines: by descending length, or by
ascending start index when the lengths are within the absolute tolerance
1/1000 (`atools::almostEqual(l1, l2, 0.001)`). -/
def ldBefore (ld1 ld2 : PolygonLineDistance) : Bool :=
  if |ld1.length - ld2.length| ≤ 1 / 1000 then
    decide (ld1.indexFrom < ld2.indexFrom)
  else decide (ld2.length < ld1.length)

/-- Insertion into a list sorted by ldBefore. -/
def insertLD (x : PolygonLineDistance) :
    List PolygonLineDistance → List PolygonLineDistance
  | [] => [x]
  | y :: ys => if ldBefore x y then x :: y :: ys else y :: insertLD x ys

/-- Model of the `std::sort` call: insertion sort with the ldBefore
comparator. -/
def sortLD : List PolygonLineDistance → List PolygonLineDistance
  | [] => []
  | x :: xs => insertLD x (sortLD xs)

/-- Edge list of getLongPolygonLines: wrap-around consecutive vertex
pairs. -/
def polygonLines (polygon : List Point) (size : Nat) : List Line :=
  (List.range size).map fun (i : Nat) =>
    ⟨atIdx polygon (wrapIndex (i : Int) (size : Int)),
     atIdx polygon (wrapIndex ((i : Int) + 1) (size : Int))⟩

/-- Builder phase of getLongPolygonLines: strict-inside pass first and,
if that returned an empty list, the touching-or-crossing pass. -/
def buildDistLines (lines : List Line) (screenRect : Rect) (size : Nat)
    (wantStdDev : Bool) (angleOf lengthOf : Line → ℚ) :
    List PolygonLineDistance × Option ℚ :=
  let r1 := createPolyLines lines screenRect size false wantStdDev angleOf lengthOf
  if r1.1.isEmpty then
    createPolyLines lines screenRect size true wantStdDev angleOf lengthOf
  else r1

/-- Combining (when 0 < maxAngle) followed by the sort. -/
def rankAndMerge (distLines : List PolygonLineDistance) (maxAngle : ℚ) :
    List PolygonLineDistance :=
  sortLD (if 0 < maxAngle then mergeLines distLines maxAngle else distLines)

/-- PolygonLineDistance::getLongPolygonLines.  The `circle` out-parameter
is modelled as `wantCircle : Bool` (pointer non-null) together with an
`Option Bool` result that is `none` exactly when the source leaves the
slot untouched. -/
def getLongPolygonLines (polygon : List Point) (screenRect : Rect)
    (limit : Int) (maxAngle : ℚ) (wantCircle : Bool)
    (angleOf lengthOf : Line → ℚ) :
    List PolygonLineDistance × Option Bool :=
  let size := effectiveSize polygon
  if size ≤ 2 ∨ limit = 0 then ([], none)
  else
    let res := buildDistLines (polygonLines polygon size) screenRect size
      wantCircle angleOf lengthOf
    let anglesStdDev := res.2.getD 0
    let circleOut : Option Bool :=
      if wantCircle then
        some (decide (0 < anglesStdDev) && decide (anglesStdDev < 100))
      else none
    let final :=
      if res.1.isEmpty then res.1
      else
        let sorted := rankAndMerge res.1 maxAngle
        if limit < (sorted.length : Int) then sorted.take limit.toNat
        else sorted
    (final, circleOut)

/-! Specification-side definitions, written from the wording of the
claims and of the specification so that the theorems can compare the code
against them. -/

/-- Consecutive shortest-arc angle differences of a list of angles, one
per adjacent pair: the recorded angular differences of the builder. -/
def specDiffs : List ℚ → List ℚ
  | a :: b :: rest => angleAbsDiff b a :: specDiffs (b :: rest)
  | _ => []

/-- Sum of squared deviations of a list from its average. -/
def sumSqDev (l : List ℚ) : ℚ :=
  (l.map fun a => (a - l.sum / (l.length : ℚ)) * (a - l.sum / (l.length : ℚ))).sum

/-- Population variance: mean of the squared deviations from the mean,
as the claim words it. -/
def popVariance (l : List ℚ) : ℚ := sumSqDev l / (l.length : ℚ)

/-- Number of distinct vertices of a polygon. -/
def distinctCount (ps : List Point) : Nat := ps.dedup.length

/-- Signed 3x3 homogeneous determinant det [[1, xa, ya], [1, xb, yb],
[1, xc, yc]] by standard cofactor expansion, as named by the claim. -/
def det3 (a b c : Point) : ℚ :=
  (b.x * c.y - c.x * b.y) - (a.x * c.y - c.x * a.y) + (a.x * b.y - b.x * a.y)

/-- Orientation test in standard mathematical coordinates (x right,
y up): positive means the triangle a, b, c is listed counter-clockwise,
negative means clockwise. -/
def cross (a b c : Point) : ℚ :=
  (b.x - a.x) * (c.y - a.y) - (b.y - a.y) * (c.x - a.x)

/-- Ranking relation of the sorted output as the claim words it:
descending length, with lengths equal within the absolute tolerance
1/1000 ordered by ascending start index. -/
def rankedRel (a b : PolygonLineDistance) : Prop :=
  if |a.length - b.length| ≤ 1 / 1000 then a.indexFrom ≤ b.indexFrom
  else b.length ≤ a.length

instance (a b : PolygonLineDistance) : Decidable (rankedRel a b) := by
  unfold rankedRel
  infer_instance

/-- Merging pass as the claim words it: a fold over the entries with an
explicit accumulator for the currently accumulating merged edge.  Each
valid edge within maxAngle of the accumulating edge's angle extends it
(the end index becomes the new edge's end index, the lengths add up, the
second endpoint becomes the new edge's far endpoint); any other valid
edge starts a new merged edge; invalid edges never start or extend a
group. -/
def mergeSpecGo (maxAngle : ℚ) :
    List (Nat × PolygonLineDistance) → List PolygonLineDistance →
    PolygonLineDistance → List PolygonLineDistance
  | [], done, cur => done ++ [cur]
  | (_, e) :: rest, done, cur =>
    if e.indexFrom < 0 then mergeSpecGo maxAngle rest done cur
    else if angleAbsDiff e.angle cur.angle < maxAngle then
      mergeSpecGo maxAngle rest done
        { cur with
          indexTo := e.indexTo,
          length := cur.length + e.length,
          line := ⟨cur.line.p1, e.line.p2⟩ }
    else mergeSpecGo maxAngle rest (done ++ [cur]) e

/-- Merging as the claim words it: scan forward from the first valid
edge and fold the remaining entries. -/
def mergeSpec (distLines : List PolygonLineDistance) (maxAngle : ℚ) :
    List PolygonLineDistance :=
  match firstValid distLines 0 with
  | none => distLines
  | some (i, e) => mergeSpecGo maxAngle ((distLines.enum).drop (i + 1)) [] e

/-! Concrete instantiations of the two external geometry measures, and
the concrete inputs used by the counterexamples and witnesses. -/

/-- Modelled from the spec: the conversion of a segment direction into
the 0-360 true-angle convention (`angleFromQt(QLineF::angle())`, both
outside the reviewed sources), evaluated exactly on axis-aligned
segments: up (decreasing y on screen) is 0, right is 90, down is 180,
left is 270. -/
def rectAngle (l : Line) : ℚ :=
  if l.p1.x = l.p2.x then (if l.p2.y < l.p1.y then 0 else 180)
  else if l.p1.y = l.p2.y then (if l.p1.x < l.p2.x then 90 else 270)
  else 45

/-- Modelled from the spec: the Euclidean segment length
(`QLineF::length`, outside the reviewed sources), evaluated exactly on
axis-aligned segments. -/
def rectLength (l : Line) : ℚ :=
  if l.p1.x = l.p2.x then |l.p2.y - l.p1.y|
  else if l.p1.y = l.p2.y then |l.p2.x - l.p1.x| else 0

/-- Test polygon: an axis-aligned square with side 10. -/
def sq1 : List Point := [⟨0, 0⟩, ⟨10, 0⟩, ⟨10, 10⟩, ⟨0, 10⟩]

/-- Test viewport crossed by the left edge of sq1 but containing none of
its edges. -/
def rc1 : Rect := ⟨-5, 3, 10, 4⟩

/-- Test viewport containing only the top edge of sq1. -/
def rc2 : Rect := ⟨-1, -1, 12, 2⟩

/-- Test viewport containing all test polygons. -/
def bigRect : Rect := ⟨-100, -100, 200, 200⟩

/-- Three test segments whose recorded angular differences are 0 and
90. -/
def lines3 : List Line :=
  [⟨⟨0, 0⟩, ⟨10, 0⟩⟩, ⟨⟨10, 0⟩, ⟨20, 0⟩⟩, ⟨⟨20, 0⟩, ⟨20, 10⟩⟩]

/-- Test triangle for the merging claim, with the exact side lengths
4, 3 and 5. -/
def triC6 : List Point := [⟨0, 0⟩, ⟨4, 0⟩, ⟨4, 3⟩]

/-- Angle measure giving the three edges of triC6 the angles 10, 12 and
80 stipulated by the claim's merging example. -/
def angleOfC6 (l : Line) : ℚ :=
  if l = ⟨⟨0, 0⟩, ⟨4, 0⟩⟩ then 10 else if l = ⟨⟨4, 0⟩, ⟨4, 3⟩⟩ then 12 else 80

/-- Euclidean lengths for the edges of triC6 (the hypotenuse has length
exactly 5). -/
def lengthOfC6 (l : Line) : ℚ :=
  if l = ⟨⟨4, 3⟩, ⟨0, 0⟩⟩ then 5 else rectLength l

/-! Helper lemmas about the Edge Distance Builder and its angle
statistic. -/

theorem createPolyLinesGo_length (rect : Rect) (ci sd : Bool)
    (aOf lOf : Line → ℚ) :
    ∀ (ls : List Line) (i : Nat) (pa : Option ℚ),
      ((createPolyLinesGo rect ci sd aOf lOf ls i pa).2).length = ls.length := by
  intro ls
  induction ls with
  | nil => intro i pa; rfl
  | cons line rest ih =>
    intro i pa
    simp [createPolyLinesGo, ih]

theorem createPolyLinesGo_angles (rect : Rect) (ci : Bool)
    (aOf lOf : Line → ℚ) :
    ∀ (ls : List Line) (i : Nat) (pa : Option ℚ),
      (createPolyLinesGo rect ci true aOf lOf ls i pa).1 =
        specDiffs (pa.toList ++ ls.map aOf) := by
  intro ls
  induction ls with
  | nil =>
    intro i pa
    cases pa <;> rfl
  | cons line rest ih =>
    intro i pa
    cases pa with
    | none => simp [createPolyLinesGo, ih, specDiffs]
    | some prev => simp [createPolyLinesGo, ih, specDiffs]

theorem foldl_add_sum : ∀ (l : List ℚ) (c : ℚ),
    l.foldl (fun acc a => acc + a) c = c + l.sum := by
  intro l
  induction l with
  | nil => intro c; simp
  | cons a t ih =>
    intro c
    simp only [List.foldl_cons, List.sum_cons, ih]
    ring

theorem foldl_add_map (f : ℚ → ℚ) : ∀ (l : List ℚ) (c : ℚ),
    l.foldl (fun acc a => acc + f a) c = c + (l.map f).sum := by
  intro l
  induction l with
  | nil => intro c; simp
  | cons a t ih =>
    intro c
    simp only [List.foldl_cons, List.map_cons, List.sum_cons, ih]
    ring

theorem createPolyLines_stdDev (lines : List Line) (rect : Rect) (size : Nat)
    (ci : Bool) (aOf lOf : Line → ℚ) :
    (createPolyLines lines rect size ci true aOf lOf).2 =
      some (sumSqDev (specDiffs ((lines.take size).map aOf))) := by
  simp only [createPolyLines, if_pos, createPolyLinesGo_angles, Option.toList,
    List.nil_append, foldl_add_sum, foldl_add_map, zero_add, sumSqDev]

theorem sumSqDev_allEq (l : List ℚ) (h : ∀ x ∈ l, ∀ y ∈ l, x = y) :
    sumSqDev l = 0 := by
  unfold sumSqDev
  cases l with
  | nil => simp
  | cons a t =>
    have hall : ∀ x ∈ a :: t, x = a := fun x hx =>
      h x hx a (List.mem_cons_self a t)
    have hsum : (a :: t).sum = ((a :: t).length : ℚ) * a := by
      rw [List.sum_eq_card_nsmul (a :: t) a hall]
      simp [nsmul_eq_mul]
    apply List.sum_eq_zero
    intro x hx
    rcases List.mem_map.mp hx with ⟨b, hb, rfl⟩
    have hba : b = a := hall b hb
    have hlen : ((a :: t).length : ℚ) ≠ 0 := by
      rw [Nat.cast_ne_zero]
      simp
    rw [hba, hsum, mul_div_cancel_left₀ _ hlen]
    ring

theorem polygonLines_length (p : List Point) (n : Nat) :
    (polygonLines p n).length = n := by
  unfold polygonLines
  rw [List.length_map, List.length_range]

theorem createPolyLines_fst_length (lines : List Line) (rect : Rect)
    (size : Nat) (ci sd : Bool) (aOf lOf : Line → ℚ) :
    (createPolyLines lines rect size ci sd aOf lOf).1.length =
      (lines.take size).length := by
  simp [createPolyLines, createPolyLinesGo_length]

theorem buildDistLines_eq_strict (lines : List Line) (rect : Rect)
    (size : Nat) (sd : Bool) (aOf lOf : Line → ℚ)
    (hlen : lines.length = size) (hpos : 0 < size) :
    buildDistLines lines rect size sd aOf lOf =
      createPolyLines lines rect size false sd aOf lOf := by
  unfold buildDistLines
  rw [if_neg]
  intro hE
  have h1 : (createPolyLines lines rect size false sd aOf lOf).1.length = size := by
    rw [createPolyLines_fst_length, List.length_take, hlen, min_self]
  rw [List.isEmpty_iff.mp hE] at h1
  simp at h1
  omega

theorem getLongPolygonLines_snd (p : List Point) (rect : Rect) (limit : Int)
    (maxA : ℚ) (wc : Bool) (aOf lOf : Line → ℚ)
    (h2 : 2 < effectiveSize p) (hl : limit ≠ 0) :
    (getLongPolygonLines p rect limit maxA wc aOf lOf).2 =
      (if wc then
        some (decide (0 < (buildDistLines (polygonLines p (effectiveSize p))
            rect (effectiveSize p) wc aOf lOf).2.getD 0) &&
          decide ((buildDistLines (polygonLines p (effectiveSize p))
            rect (effectiveSize p) wc aOf lOf).2.getD 0 < 100))
      else none) := by
  simp only [getLongPolygonLines]
  rw [if_neg]
  omega

theorem buildDistLines_snd_stdDev (p : List Point) (rect : Rect)
    (aOf lOf : Line → ℚ) (h2 : 2 < effectiveSize p) :
    (buildDistLines (polygonLines p (effectiveSize p)) rect (effectiveSize p)
        true aOf lOf).2 =
      some (sumSqDev (specDiffs ((polygonLines p (effectiveSize p)).map aOf))) := by
  rw [buildDistLines_eq_strict _ _ _ _ _ _ (polygonLines_length p _) (by omega),
    createPolyLines_stdDev,
    List.take_of_length_le (le_of_eq (polygonLines_length p _))]

/-- C2 (counterexample): on three concrete segments whose recorded
angular differences are 0 and 90, createPolyLines writes 4050 (the sum of
squared deviations) to the output slot, while the population variance of
the recorded differences is 2025 — so the written value is not the
population variance the claim states. -/
theorem c2_not_population_variance :
    (createPolyLines lines3 bigRect 3 false true rectAngle rectLength).2 = some 4050 ∧
    popVariance (specDiffs (lines3.map rectAngle)) = 2025 ∧ (4050 : ℚ) ≠ 2025 := by
  decide!

/-- C2 (amended): when angular-variance tracking is requested,
createPolyLines writes to the output slot the SUM of the squared
deviations of the recorded angular differences from their average (the
population variance times the number of recorded differences), for every
edge list. -/
theorem c2_sum_of_squared_deviations (lines : List Line) (rect : Rect)
    (size : Nat) (ci : Bool) (aOf lOf : Line → ℚ) :
    (createPolyLines lines rect size ci true aOf lOf).2 =
      some (sumSqDev (specDiffs ((lines.take size).map aOf))) :=
  createPolyLines_stdDev lines rect size ci aOf lOf

/-- C5: when the circularity flag is requested (and actually computed,
i.e. the polygon has more than 2 effective vertices and the limit is not
0), the polygon is reported circular iff the statistic computed by the
builder — the sum of squared deviations of the recorded angular
differences, see C2 — is strictly between 0 and 100; and when all
recorded angular differences are identical the statistic is 0 and the
polygon is reported not circular. -/
theorem c5_circularity_threshold (p : List Point) (rect : Rect)
    (limit : Int) (maxA : ℚ) (aOf lOf : Line → ℚ)
    (h2 : 2 < effectiveSize p) (hl : limit ≠ 0) :
    ((getLongPolygonLines p rect limit maxA true aOf lOf).2 =
      some (decide
        (0 < sumSqDev (specDiffs ((polygonLines p (effectiveSize p)).map aOf) ) ∧
         sumSqDev (specDiffs ((polygonLines p (effectiveSize p)).map aOf)) < 100))) ∧
    ((∀ x ∈ specDiffs ((polygonLines p (effectiveSize p)).map aOf),
        ∀ y ∈ specDiffs ((polygonLines p (effectiveSize p)).map aOf), x = y) →
      (getLongPolygonLines p rect limit maxA true aOf lOf).2 = some false) := by
  have hmain : (getLongPolygonLines p rect limit maxA true aOf lOf).2 =
      some (decide
        (0 < sumSqDev (specDiffs ((polygonLines p (effectiveSize p)).map aOf)) ∧
         sumSqDev (specDiffs ((polygonLines p (effectiveSize p)).map aOf)) < 100)) := by
    rw [getLongPolygonLines_snd p rect limit maxA true aOf lOf h2 hl, if_pos rfl,
      buildDistLines_snd_stdDev p rect aOf lOf h2]
    simp only [Option.getD_some, Bool.decide_and]
  refine ⟨hmain, fun hall => ?_⟩
  rw [hmain, sumSqDev_allEq _ hall]
  simp

/-- C5 (witness): for the axis-aligned square inside the big viewport the
recorded angular differences are 90, 90, 90, all identical, and the
polygon is reported not circular. -/
theorem c5_circularity_threshold_witness :
    (getLongPolygonLines sq1 bigRect 5 0 true rectAngle rectLength).2 = some false :=
  (c5_circularity_threshold sq1 bigRect 5 0 rectAngle rectLength
    (by decide!) (by norm_num)).2 (by decide!)

/-- C9 (counterexample): for a 2-vertex polygon with the circularity slot
supplied, getLongPolygonLines returns without writing the slot, so the
slot is not written for every input. -/
theorem c9_circle_not_written :
    (getLongPolygonLines [⟨0, 0⟩, ⟨1, 1⟩] bigRect 5 0 true rectAngle
      rectLength).2 = none := by
  decide!

/-- C9 (amended): whenever the caller supplies a circularity output slot
and the early return is not taken (more than 2 effective vertices and a
non-zero limit), getLongPolygonLines writes the circularity boolean to
the slot. -/
theorem c9_circle_written_nondegenerate (p : List Point) (rect : Rect)
    (limit : Int) (maxA : ℚ) (aOf lOf : Line → ℚ)
    (h2 : 2 < effectiveSize p) (hl : limit ≠ 0) :
    ((getLongPolygonLines p rect limit maxA true aOf lOf).2).isSome = true := by
  rw [getLongPolygonLines_snd p rect limit maxA true aOf lOf h2 hl]
  simp

/-- C9 (witness): the slot is written for the square in the big
viewport. -/
theorem c9_circle_written_witness :
    ((getLongPolygonLines sq1 bigRect 5 0 true rectAngle rectLength).2).isSome = true :=
  c9_circle_written_nondegenerate sq1 bigRect 5 0 rectAngle rectLength
    (by decide!) (by norm_num)

/-- C1 (code_bug evaluation): the square sq1 straddles the viewport rc1
— its fourth edge crosses the boundary and no edge is fully contained.
The strict-inside builder pass returns a non-empty list of four invalid
placeholder entries, so the emptiness test never triggers the
touching-or-crossing fallback and the result contains no valid entry at
all; the second conjunct shows the fallback pass, had it run, would have
returned the crossing edge as a valid entry with index 3. -/
theorem c1_fallback_dead_code :
    (getLongPolygonLines sq1 rc1 10 0 false rectAngle rectLength).1.map
        (fun e => (e.length, e.indexFrom, e.indexTo)) =
      [(0, -1, -1), (0, -1, -1), (0, -1, -1), (0, -1, -1)] ∧
    (createPolyLines (polygonLines sq1 4) rc1 4 true false rectAngle
        rectLength).1.map (fun e => e.indexFrom) = [-1, -1, -1, 3] := by
  decide!

/-- C3 (code_bug evaluation): in the vertex list [(5,10), (3,10), (4,20)]
the vertices 0 and 1 are tied at the minimum y = 10 and vertex 1 has the
smaller x, yet findCornerPoint returns 0: the tie-break compares the
candidate's y coordinate (10) against the stored minimum x (5) instead
of its x coordinate, contradicting the source's own comment and the
claimed minimum-x tie-break. -/
theorem c3_corner_tie_break_bug :
    findCornerPoint [⟨5, 10⟩, ⟨3, 10⟩, ⟨4, 20⟩] 3 = 0 ∧
    (atIdx [⟨5, 10⟩, ⟨3, 10⟩, ⟨4, 20⟩] 1).y = (atIdx [⟨5, 10⟩, ⟨3, 10⟩, ⟨4, 20⟩] 0).y ∧
    (atIdx [⟨5, 10⟩, ⟨3, 10⟩, ⟨4, 20⟩] 1).x < (atIdx [⟨5, 10⟩, ⟨3, 10⟩, ⟨4, 20⟩] 0).x := by
  decide!

/-- C4 (counterexample): the polygon [(0,0), (0,0), (1,1)] has only 2
distinct vertices but 3 stored vertices after closure adjustment, and
getPolygonOrientation classifies it as CounterClockwise (not Degenerate)
while getLongPolygonLines returns a non-empty list — the code tests the
stored count, not the distinct count. -/
theorem c4_distinct_vertices_counterexample :
    distinctCount [⟨0, 0⟩, ⟨0, 0⟩, ⟨1, 1⟩] = 2 ∧
    getPolygonOrientation [⟨0, 0⟩, ⟨0, 0⟩, ⟨1, 1⟩] ≠ Orientation.INVALID_TOO_SMALL ∧
    (getLongPolygonLines [⟨0, 0⟩, ⟨0, 0⟩, ⟨1, 1⟩] bigRect 10 0 false rectAngle
      rectLength).1 ≠ [] := by
  decide!

/-- C4 (amended): for every polygon that, after dropping the duplicated
closing vertex, has fewer than 3 stored vertices, getPolygonOrientation
returns the Degenerate result and getLongPolygonLines returns an empty
list, regardless of viewport, limit and maxAngle. -/
theorem c4_degenerate_size (p : List Point) (h : effectiveSize p ≤ 2)
    (rect : Rect) (limit : Int) (maxA : ℚ) (wc : Bool) (aOf lOf : Line → ℚ) :
    getPolygonOrientation p = Orientation.INVALID_TOO_SMALL ∧
    (getLongPolygonLines p rect limit maxA wc aOf lOf).1 = [] := by
  constructor
  · simp only [getPolygonOrientation]
    rw [if_pos h]
  · simp only [getLongPolygonLines]
    rw [if_pos (Or.inl h)]

theorem setLast_concat (f : PolygonLineDistance → PolygonLineDistance)
    (l : List PolygonLineDistance) (a : PolygonLineDistance) :
    setLast f (l ++ [a]) = l ++ [f a] := by
  induction l with
  | nil => rfl
  | cons b t ih =>
    cases t with
    | nil => rfl
    | cons c cs =>
      simp only [List.cons_append] at ih ⊢
      rw [setLast, ih]

theorem merge_fold_eq_spec (maxA : ℚ) :
    ∀ (rest : List (Nat × PolygonLineDistance))
      (done : List PolygonLineDistance) (cur : PolygonLineDistance),
      (∀ je ∈ rest, 0 ≤ (je.2).indexFrom → (je.2).indexTo = (je.1 : Int) + 1) →
      rest.foldl (mergeStep maxA) (done ++ [cur]) = mergeSpecGo maxA rest done cur := by
  intro rest
  induction rest with
  | nil => intro done cur _; rfl
  | cons je rest ih =>
    intro done cur h
    obtain ⟨j, e⟩ := je
    have hrest : ∀ je ∈ rest, 0 ≤ (je.2).indexFrom →
        (je.2).indexTo = (je.1 : Int) + 1 :=
      fun je hj => h je (List.mem_cons_of_mem _ hj)
    simp only [List.foldl_cons]
    by_cases hv : e.indexFrom < 0
    · have hstep : mergeStep maxA (done ++ [cur]) (j, e) = done ++ [cur] := by
        simp [mergeStep, PolygonLineDistance.isValid, not_le.mpr hv]
      rw [hstep, mergeSpecGo, if_pos hv]
      exact ih done cur hrest
    · have h0 : 0 ≤ e.indexFrom := by omega
      have hTo : e.indexTo = (j : Int) + 1 := h (j, e) (List.mem_cons_self _ _) h0
      by_cases hang : angleAbsDiff e.angle cur.angle < maxA
      · have hstep : mergeStep maxA (done ++ [cur]) (j, e) =
            done ++ [{ cur with
              indexTo := (j : Int) + 1,
              length := cur.length + e.length,
              line := ⟨cur.line.p1, e.line.p2⟩ }] := by
          simp [mergeStep, PolygonLineDistance.isValid, h0,
            PolygonLineDistance.hasSameAngle, hang, List.getLast?_concat,
            setLast_concat]
        rw [hstep, mergeSpecGo, if_neg hv, if_pos hang, ← hTo]
        exact ih done _ hrest
      · have hstep : mergeStep maxA (done ++ [cur]) (j, e) =
            (done ++ [cur]) ++ [e] := by
          simp [mergeStep, PolygonLineDistance.isValid, h0,
            PolygonLineDistance.hasSameAngle, hang, List.getLast?_concat]
        rw [hstep, mergeSpecGo, if_neg hv, if_neg hang]
        exact ih (done ++ [cur]) e hrest

theorem mergeLines_eq_mergeSpec (dl : List PolygonLineDistance) (maxA : ℚ)
    (h : ∀ je ∈ dl.enum, 0 ≤ (je.2).indexFrom →
      (je.2).indexTo = (je.1 : Int) + 1) :
    mergeLines dl maxA = mergeSpec dl maxA := by
  unfold mergeLines mergeSpec
  cases hf : firstValid dl 0 with
  | none => rfl
  | some ie =>
    obtain ⟨i, e⟩ := ie
    have := merge_fold_eq_spec maxA ((dl.enum).drop (i + 1)) [] e
      (fun je hj => h je (List.mem_of_mem_drop hj))
    simpa using this

/-- C6: the combining pass of getLongPolygonLines coincides with the
claim's forward scan — a fold from the first valid edge in which each
subsequent valid edge within maxAngle of the accumulating merged edge's
angle extends it (end index, summed length, moved far endpoint) and any
other valid edge starts a new merged edge, invalid edges never starting
or extending a group — whenever the valid entries are index-aligned as
the builder produces them (a valid entry at position i spans i to i+1);
and on the concrete triangle whose edges have angles 10, 12, 80 with
maxAngle 5, the first two edges become one edge of summed length 7
spanning indices 0 to 2 while the third stays separate. -/
theorem c6_merge_consecutive :
    (∀ (dl : List PolygonLineDistance) (maxA : ℚ),
      (∀ je ∈ dl.enum, 0 ≤ (je.2).indexFrom →
        (je.2).indexTo = (je.1 : Int) + 1) →
      mergeLines dl maxA = mergeSpec dl maxA) ∧
    (getLongPolygonLines triC6 bigRect 10 5 false angleOfC6 lengthOfC6).1 =
      [⟨7, 10, 0, 2, ⟨⟨0, 0⟩, ⟨4, 3⟩⟩⟩, ⟨5, 80, 2, 3, ⟨⟨4, 3⟩, ⟨0, 0⟩⟩⟩] := by
  refine ⟨fun dl maxA h => mergeLines_eq_mergeSpec dl maxA h, ?_⟩
  decide!

/-- C6 (witness): instantiation of the refinement at a concrete
single-entry list. -/
theorem c6_merge_consecutive_witness :
    mergeLines [⟨4, 10, 0, 1, ⟨⟨0, 0⟩, ⟨4, 0⟩⟩⟩] 5 =
      mergeSpec [⟨4, 10, 0, 1, ⟨⟨0, 0⟩, ⟨4, 0⟩⟩⟩] 5 :=
  c6_merge_consecutive.1 [⟨4, 10, 0, 1, ⟨⟨0, 0⟩, ⟨4, 0⟩⟩⟩] 5 (by decide!)

theorem rankedRel_of_ldBefore (x y : PolygonLineDistance)
    (h : ldBefore x y = true) : rankedRel x y := by
  unfold ldBefore at h
  unfold rankedRel
  split_ifs at h ⊢ with h1
  · simp only [decide_eq_true_eq] at h
    omega
  · simp only [decide_eq_true_eq] at h
    linarith

theorem rankedRel_of_not_ldBefore (x y : PolygonLineDistance)
    (h : ldBefore x y = false) : rankedRel y x := by
  unfold ldBefore at h
  unfold rankedRel
  rw [abs_sub_comm y.length x.length]
  split_ifs at h ⊢ with h1
  · simp only [decide_eq_false_iff_not] at h
    omega
  · simp only [decide_eq_false_iff_not] at h
    linarith

theorem chain'_insertLD (x : PolygonLineDistance) :
    ∀ (l : List PolygonLineDistance), l.Chain' rankedRel →
      (insertLD x l).Chain' rankedRel := by
  intro l
  induction l with
  | nil => intro _; simp [insertLD]
  | cons y ys ih =>
    intro hc
    rw [insertLD]
    by_cases hb : ldBefore x y = true
    · rw [if_pos hb]
      exact List.chain'_cons.mpr ⟨rankedRel_of_ldBefore x y hb, hc⟩
    · rw [if_neg hb]
      apply List.chain'_cons'.mpr
      refine ⟨?_, ih hc.tail⟩
      intro z hz
      have hyx : rankedRel y x :=
        rankedRel_of_not_ldBefore x y (Bool.not_eq_true _ ▸ eq_false_of_ne_true hb)
      cases ys with
      | nil =>
        simp [insertLD] at hz
        exact hz ▸ hyx
      | cons w ws =>
        rw [insertLD] at hz
        by_cases hbw : ldBefore x w = true
        · rw [if_pos hbw] at hz
          simp at hz
          exact hz ▸ hyx
        · rw [if_neg hbw] at hz
          simp at hz
          exact hz ▸ (List.chain'_cons.mp hc).1

theorem chain'_sortLD : ∀ (l : List PolygonLineDistance),
    (sortLD l).Chain' rankedRel := by
  intro l
  induction l with
  | nil => simp [sortLD]
  | cons x xs ih =>
    rw [sortLD]
    exact chain'_insertLD x _ ih

/-- C7: the list returned by getLongPolygonLines is sorted — each entry
is related to the next by descending length, with lengths equal within
the absolute tolerance 1/1000 ordered by ascending start index —,
contains at most limit entries, and is a prefix of the full sorted
ranking (the longest-ranked prefix is kept by the truncation). -/
theorem c7_sorted_truncated (p : List Point) (rect : Rect) (limit : Int)
    (maxA : ℚ) (wc : Bool) (aOf lOf : Line → ℚ) (hl : 0 ≤ limit) :
    ((getLongPolygonLines p rect limit maxA wc aOf lOf).1).Chain' rankedRel ∧
    (((getLongPolygonLines p rect limit maxA wc aOf lOf).1).length : Int) ≤ limit ∧
    (getLongPolygonLines p rect limit maxA wc aOf lOf).1 <+:
      rankAndMerge (buildDistLines (polygonLines p (effectiveSize p)) rect
        (effectiveSize p) wc aOf lOf).1 maxA := by
  simp only [getLongPolygonLines]
  by_cases h0 : effectiveSize p ≤ 2 ∨ limit = 0
  · rw [if_pos h0]
    refine ⟨by simp, by simpa using hl, ?_⟩
    simp
  · rw [if_neg h0]
    by_cases hE : (buildDistLines (polygonLines p (effectiveSize p)) rect
        (effectiveSize p) wc aOf lOf).1.isEmpty
    · simp only [hE, if_pos]
      rw [List.isEmpty_iff.mp hE]
      refine ⟨by simp, by simpa using hl, ?_⟩
      simp
    · simp only [hE]
      rw [if_neg (by simp)]
      have hchain : (rankAndMerge (buildDistLines (polygonLines p
          (effectiveSize p)) rect (effectiveSize p) wc aOf lOf).1
            maxA).Chain' rankedRel := by
        unfold rankAndMerge
        exact chain'_sortLD _
      by_cases htr : limit < ((rankAndMerge (buildDistLines (polygonLines p
          (effectiveSize p)) rect (effectiveSize p) wc aOf lOf).1
            maxA).length : Int)
      · rw [if_pos htr]
        refine ⟨hchain.take _, ?_, List.take_prefix _ _⟩
        rw [List.length_take]
        have : (limit.toNat : Int) = limit := Int.toNat_of_nonneg hl
        omega
      · rw [if_neg htr]
        exact ⟨hchain, by omega, List.prefix_refl _⟩

/-- C7 (witness): instantiation at the square sq1 with the viewport rc2
and limit 10. -/
theorem c7_sorted_truncated_witness :
    ((getLongPolygonLines sq1 rc2 10 0 false rectAngle rectLength).1).Chain' rankedRel ∧
    (((getLongPolygonLines sq1 rc2 10 0 false rectAngle rectLength).1).length : Int) ≤ 10 ∧
    (getLongPolygonLines sq1 rc2 10 0 false rectAngle rectLength).1 <+:
      rankAndMerge (buildDistLines (polygonLines sq1 (effectiveSize sq1)) rc2
        (effectiveSize sq1) false rectAngle rectLength).1 0 :=
  c7_sorted_truncated sq1 rc2 10 0 false rectAngle rectLength (by norm_num)

theorem mem_insertLD (a x : PolygonLineDistance) :
    ∀ (l : List PolygonLineDistance), a ∈ insertLD x l ↔ a = x ∨ a ∈ l := by
  intro l
  induction l with
  | nil => simp [insertLD]
  | cons y ys ih =>
    rw [insertLD]
    by_cases hb : ldBefore x y = true
    · rw [if_pos hb]
      simp [List.mem_cons]
    · rw [if_neg hb]
      simp [List.mem_cons, ih]
      tauto

theorem mem_sortLD (a : PolygonLineDistance) :
    ∀ (l : List PolygonLineDistance), a ∈ sortLD l ↔ a ∈ l := by
  intro l
  induction l with
  | nil => simp [sortLD]
  | cons x xs ih =>
    rw [sortLD, mem_insertLD]
    simp [List.mem_cons, ih]

theorem firstValid_valid :
    ∀ (l : List PolygonLineDistance) (k i : Nat) (e : PolygonLineDistance),
      firstValid l k = some (i, e) → 0 ≤ e.indexFrom := by
  intro l
  induction l with
  | nil => intro k i e h; simp [firstValid] at h
  | cons a t ih =>
    intro k i e h
    rw [firstValid] at h
    by_cases hv : a.isValid = true
    · rw [if_pos hv] at h
      simp only [Option.some_inj, Prod.mk.injEq] at h
      rw [← h.2]
      simpa [PolygonLineDistance.isValid] using hv
    · rw [if_neg hv] at h
      exact ih (k + 1) i e h

theorem firstValid_isSome_of_exists :
    ∀ (l : List PolygonLineDistance) (k : Nat),
      (∃ e ∈ l, 0 ≤ e.indexFrom) → (firstValid l k).isSome = true := by
  intro l
  induction l with
  | nil =>
    intro k h
    rcases h with ⟨e, he, _⟩
    simp at he
  | cons a t ih =>
    intro k h
    rw [firstValid]
    by_cases hv : a.isValid = true
    · rw [if_pos hv]
      rfl
    · rw [if_neg hv]
      apply ih
      rcases h with ⟨e, he, hge⟩
      rcases List.mem_cons.mp he with rfl | hmem
      · exact absurd (by simpa [PolygonLineDistance.isValid] using hge) hv
      · exact ⟨e, hmem, hge⟩

theorem setLast_valid (f : PolygonLineDistance → PolygonLineDistance)
    (hf : ∀ y, (f y).indexFrom = y.indexFrom) :
    ∀ (l : List PolygonLineDistance), (∀ y ∈ l, 0 ≤ y.indexFrom) →
      ∀ z ∈ setLast f l, 0 ≤ z.indexFrom := by
  intro l
  induction l with
  | nil => intro _ z hz; simp [setLast] at hz
  | cons a t ih =>
    intro h z hz
    cases t with
    | nil =>
      simp [setLast] at hz
      rw [hz, hf]
      exact h a (List.mem_cons_self _ _)
    | cons b u =>
      rw [setLast] at hz
      rcases List.mem_cons.mp hz with rfl | hz'
      · exact h z (List.mem_cons_self _ _)
      · exact ih (fun y hy => h y (List.mem_cons_of_mem _ hy)) z hz'

theorem mergeStep_valid (maxA : ℚ) (acc : List PolygonLineDistance)
    (je : Nat × PolygonLineDistance)
    (h : ∀ y ∈ acc, 0 ≤ y.indexFrom) :
    ∀ y ∈ mergeStep maxA acc je, 0 ≤ y.indexFrom := by
  intro y hy
  unfold mergeStep at hy
  by_cases hv : (je.2).isValid = true
  · simp only [hv, Bool.not_true, Bool.false_eq_true, if_false] at hy
    have hvge : 0 ≤ (je.2).indexFrom := by
      simpa [PolygonLineDistance.isValid] using hv
    split at hy
    · rcases List.mem_append.mp hy with h1 | h2
      · exact h y h1
      · simp at h2
        rw [h2]
        exact hvge
    · split at hy
      · refine setLast_valid _ ?_ acc h y hy
        intro l
        rfl
      · rcases List.mem_append.mp hy with h1 | h2
        · exact h y h1
        · simp at h2
          rw [h2]
          exact hvge
  · rw [Bool.not_eq_true] at hv
    simp only [hv, Bool.not_false, if_true] at hy
    exact h y hy

theorem merge_fold_valid (maxA : ℚ) :
    ∀ (rest : List (Nat × PolygonLineDistance))
      (acc : List PolygonLineDistance),
      (∀ y ∈ acc, 0 ≤ y.indexFrom) →
      ∀ z ∈ rest.foldl (mergeStep maxA) acc, 0 ≤ z.indexFrom := by
  intro rest
  induction rest with
  | nil => intro acc h z hz; exact h z hz
  | cons je t ih =>
    intro acc h z hz
    rw [List.foldl_cons] at hz
    exact ih (mergeStep maxA acc je) (mergeStep_valid maxA acc je h) z hz

theorem mergeLines_valid (dl : List PolygonLineDistance) (maxA : ℚ)
    (hex : ∃ e ∈ dl, 0 ≤ e.indexFrom) :
    ∀ z ∈ mergeLines dl maxA, 0 ≤ z.indexFrom := by
  intro z hz
  unfold mergeLines at hz
  cases hf : firstValid dl 0 with
  | none =>
    exfalso
    have hsome := firstValid_isSome_of_exists dl 0 hex
    rw [hf] at hsome
    simp at hsome
  | some ie =>
    rw [hf] at hz
    obtain ⟨i, e⟩ := ie
    refine merge_fold_valid maxA _ [e] ?_ z hz
    intro y hy
    simp at hy
    rw [hy]
    exact firstValid_valid dl 0 i e hf

/-- C10: with merging disabled (maxAngle 0) the invisible edges survive:
for the square sq1 and viewport rc2 the result keeps three entries of
length 0 with indexFrom = indexTo = -1, sorted after the single valid
edge; and whenever maxAngle is positive and the builder produced at least
one valid entry, every entry of the returned list is valid (indexFrom
non-negative). -/
theorem c10_invalid_entries :
    ((getLongPolygonLines sq1 rc2 10 0 false rectAngle rectLength).1.map
        (fun e => (e.length, e.indexFrom, e.indexTo)) =
      [(10, 0, 1), (0, -1, -1), (0, -1, -1), (0, -1, -1)]) ∧
    (∀ (p : List Point) (rect : Rect) (limit : Int) (maxA : ℚ) (wc : Bool)
        (aOf lOf : Line → ℚ), 0 < maxA →
      (∃ e ∈ (buildDistLines (polygonLines p (effectiveSize p)) rect
          (effectiveSize p) wc aOf lOf).1, 0 ≤ e.indexFrom) →
      ∀ e ∈ (getLongPolygonLines p rect limit maxA wc aOf lOf).1,
        0 ≤ e.indexFrom) := by
  constructor
  · decide!
  · intro p rect limit maxA wc aOf lOf hpos hex e he
    simp only [getLongPolygonLines] at he
    by_cases h0 : effectiveSize p ≤ 2 ∨ limit = 0
    · rw [if_pos h0] at he
      simp at he
    · rw [if_neg h0] at he
      by_cases hE : (buildDistLines (polygonLines p (effectiveSize p)) rect
          (effectiveSize p) wc aOf lOf).1.isEmpty
      · simp only [hE, if_pos] at he
        rw [List.isEmpty_iff.mp hE] at he
        simp at he
      · simp only [hE] at he
        rw [if_neg (by simp)] at he
        have hsorted : ∀ z ∈ rankAndMerge (buildDistLines (polygonLines p
            (effectiveSize p)) rect (effectiveSize p) wc aOf lOf).1 maxA,
            0 ≤ z.indexFrom := by
          intro z hz
          unfold rankAndMerge at hz
          rw [mem_sortLD] at hz
          rw [if_pos hpos] at hz
          exact mergeLines_valid _ maxA hex z hz
        by_cases htr : limit < ((rankAndMerge (buildDistLines (polygonLines p
            (effectiveSize p)) rect (effectiveSize p) wc aOf lOf).1
              maxA).length : Int)
        · rw [if_pos htr] at he
          exact hsorted e (List.take_subset _ _ he)
        · rw [if_neg htr] at he
          exact hsorted e he

/-- C10 (witness): instantiation of the all-valid part at the square sq1,
viewport rc2 and maxAngle 5, where the single returned entry is the valid
top edge. -/
theorem c10_invalid_entries_witness :
    (0 : Int) ≤ (PolygonLineDistance.mk 10 90 0 1 ⟨⟨0, 0⟩, ⟨10, 0⟩⟩).indexFrom :=
  c10_invalid_entries.2 sq1 rc2 10 5 false rectAngle rectLength (by norm_num)
    (by decide!) _ (by decide!)

theorem cornerStep_fst (p : List Point) (st : Int × Option (ℚ × ℚ)) (i : Nat) :
    (cornerStep p st i).1 = st.1 ∨ (cornerStep p st i).1 = (i : Int) := by
  unfold cornerStep
  obtain ⟨idx, o⟩ := st
  cases o with
  | none => right; rfl
  | some pr =>
    obtain ⟨mY, mX⟩ := pr
    simp only
    split_ifs <;> simp

theorem corner_foldl_fst (p : List Point) :
    ∀ (l : List Nat) (st : Int × Option (ℚ × ℚ)),
      (l.foldl (cornerStep p) st).1 = st.1 ∨
      ∃ j ∈ l, (l.foldl (cornerStep p) st).1 = (j : Int) := by
  intro l
  induction l with
  | nil => intro st; left; rfl
  | cons i t ih =>
    intro st
    rw [List.foldl_cons]
    rcases ih (cornerStep p st i) with h | ⟨j, hj, hje⟩
    · rcases cornerStep_fst p st i with h2 | h2
      · left
        rw [h, h2]
      · right
        exact ⟨i, List.mem_cons_self _ _, by rw [h, h2]⟩
    · right
      exact ⟨j, List.mem_cons_of_mem _ hj, hje⟩

theorem findCornerPoint_bounds (p : List Point) (n : Nat) (hn : 0 < n) :
    0 ≤ findCornerPoint p n ∧ findCornerPoint p n < (n : Int) := by
  unfold findCornerPoint
  obtain ⟨m, rfl⟩ : ∃ m, n = m + 1 := ⟨n - 1, by omega⟩
  rw [List.range_succ_eq_map, List.foldl_cons]
  rcases corner_foldl_fst p (List.map Nat.succ (List.range m))
      (cornerStep p (-1, none) 0) with h | ⟨j, hj, hje⟩
  · rw [h]
    have hfst : (cornerStep p (-1, none) 0).1 = 0 := rfl
    rw [hfst]
    constructor
    · exact le_refl 0
    · exact_mod_cast Nat.succ_pos m
  · rw [hje]
    simp only [List.mem_map, List.mem_range] at hj
    obtain ⟨k, hk, rfl⟩ := hj
    constructor
    · exact_mod_cast Nat.zero_le _
    · exact_mod_cast Nat.succ_lt_succ hk

theorem det_source_eq_cross (u v w : Point) :
    (v.x * w.y + u.x * v.y + u.y * w.x) - (u.y * v.x + v.y * w.x + u.x * w.y) =
      cross u v w := by
  unfold cross
  ring

theorem det_source_eq_det3 (u v w : Point) :
    (v.x * w.y + u.x * v.y + u.y * w.x) - (u.y * v.x + v.y * w.x + u.x * w.y) =
      det3 u v w := by
  unfold det3
  ring

theorem cross_rot (u v w : Point) : cross w u v = cross u v w := by
  unfold cross
  ring

theorem cross_rot' (u v w : Point) : cross v w u = cross u v w := by
  unfold cross
  ring

theorem getPolygonOrientation_triangle (a b c : Point)
    (hne : cross a b c ≠ 0) :
    getPolygonOrientation [a, b, c] =
      (if 0 < cross a b c then Orientation.CLOCKWISE
       else Orientation.COUNTERCLOCKWISE) := by
  have hac : a ≠ c := by
    intro h
    apply hne
    rw [h]
    unfold cross
    ring
  have hsize : effectiveSize [a, b, c] = 3 := by
    unfold effectiveSize
    have hcl : isClosed [a, b, c] = decide (a = c) := rfl
    rw [hcl]
    simp [hac]
  simp only [getPolygonOrientation, hsize]
  rw [if_neg (by omega)]
  obtain ⟨h0, h3⟩ := findCornerPoint_bounds [a, b, c] 3 (by omega)
  interval_cases h : findCornerPoint [a, b, c] 3
  · have e1 : wrapIndex (0 - 1) ((3 : Nat) : Int) = 2 := by decide
    have e2 : wrapIndex (0 + 1) ((3 : Nat) : Int) = 1 := by decide
    rw [e1, e2]
    have f0 : atIdx [a, b, c] 0 = a := rfl
    have f1 : atIdx [a, b, c] 1 = b := rfl
    have f2 : atIdx [a, b, c] 2 = c := rfl
    rw [f0, f1, f2, det_source_eq_cross, cross_rot]
  · have e1 : wrapIndex (1 - 1) ((3 : Nat) : Int) = 0 := by decide
    have e2 : wrapIndex (1 + 1) ((3 : Nat) : Int) = 2 := by decide
    rw [e1, e2]
    have f0 : atIdx [a, b, c] 0 = a := rfl
    have f1 : atIdx [a, b, c] 1 = b := rfl
    have f2 : atIdx [a, b, c] 2 = c := rfl
    rw [f0, f1, f2, det_source_eq_cross]
  · have e1 : wrapIndex (2 - 1) ((3 : Nat) : Int) = 1 := by decide
    have e2 : wrapIndex (2 + 1) ((3 : Nat) : Int) = 0 := by decide
    rw [e1, e2]
    have f0 : atIdx [a, b, c] 0 = a := rfl
    have f1 : atIdx [a, b, c] 1 = b := rfl
    have f2 : atIdx [a, b, c] 2 = c := rfl
    rw [f0, f1, f2, det_source_eq_cross, cross_rot']

/-- C8 (counterexample): the triangle (0,0), (0,1), (1,0) is listed
clockwise in standard x-right y-up coordinates (its cross product is
negative), yet getPolygonOrientation returns CounterClockwise, not the
Clockwise the claim states. -/
theorem c8_orientation_counterexample :
    cross ⟨0, 0⟩ ⟨0, 1⟩ ⟨1, 0⟩ < 0 ∧
    getPolygonOrientation [⟨0, 0⟩, ⟨0, 1⟩, ⟨1, 0⟩] = Orientation.COUNTERCLOCKWISE ∧
    Orientation.COUNTERCLOCKWISE ≠ Orientation.CLOCKWISE := by
  decide!

/-- C8 (amended): for every polygon with at least 3 vertices after
closure adjustment, getPolygonOrientation returns Clockwise exactly when
the signed 3x3 homogeneous determinant of the selected corner vertex
(minimum-y scan) and its two neighbours is strictly positive, and
CounterClockwise otherwise including the zero-determinant collinear case;
and any triangle listed counter-clockwise in standard x-right y-up
coordinates — that is, clockwise in y-down screen coordinates — yields
Clockwise, while its reversal (clockwise in y-up, counter-clockwise on
screen) yields CounterClockwise. -/
theorem c8_orientation_det :
    (∀ (p : List Point), 2 < effectiveSize p →
      ((getPolygonOrientation p = Orientation.CLOCKWISE ↔
        0 < det3
          (atIdx p (wrapIndex (findCornerPoint p (effectiveSize p) - 1)
            ((effectiveSize p) : Int)))
          (atIdx p (findCornerPoint p (effectiveSize p)))
          (atIdx p (wrapIndex (findCornerPoint p (effectiveSize p) + 1)
            ((effectiveSize p) : Int)))) ∧
       (getPolygonOrientation p = Orientation.COUNTERCLOCKWISE ↔
        det3
          (atIdx p (wrapIndex (findCornerPoint p (effectiveSize p) - 1)
            ((effectiveSize p) : Int)))
          (atIdx p (findCornerPoint p (effectiveSize p)))
          (atIdx p (wrapIndex (findCornerPoint p (effectiveSize p) + 1)
            ((effectiveSize p) : Int))) ≤ 0))) ∧
    (∀ (a b c : Point),
      (0 < cross a b c → getPolygonOrientation [a, b, c] = Orientation.CLOCKWISE) ∧
      (cross a b c < 0 →
        getPolygonOrientation [a, b, c] = Orientation.COUNTERCLOCKWISE)) := by
  constructor
  · intro p hp
    simp only [getPolygonOrientation]
    rw [if_neg (by omega), det_source_eq_det3]
    split_ifs with hdet
    · constructor
      · simp [hdet]
      · simp [hdet]
    · constructor
      · simp [hdet]
      · simp [le_of_not_lt hdet]
  · intro a b c
    constructor
    · intro h
      rw [getPolygonOrientation_triangle a b c (ne_of_gt h), if_pos h]
    · intro h
      rw [getPolygonOrientation_triangle a b c (ne_of_lt h),
        if_neg (by linarith)]

/-- C8 (witness): the determinant characterisation instantiated at the
triangle (0,0), (1,0), (0,1), which is counter-clockwise in y-up
coordinates and is classified Clockwise. -/
theorem c8_orientation_det_witness :
    (getPolygonOrientation [⟨0, 0⟩, ⟨1, 0⟩, ⟨0, 1⟩] = Orientation.CLOCKWISE ↔
      0 < det3
        (atIdx [⟨0, 0⟩, ⟨1, 0⟩, ⟨0, 1⟩]
          (wrapIndex (findCornerPoint [⟨0, 0⟩, ⟨1, 0⟩, ⟨0, 1⟩]
            (effectiveSize [⟨0, 0⟩, ⟨1, 0⟩, ⟨0, 1⟩]) - 1)
          ((effectiveSize [⟨0, 0⟩, ⟨1, 0⟩, ⟨0, 1⟩]) : Int)))
        (atIdx [⟨0, 0⟩, ⟨1, 0⟩, ⟨0, 1⟩]
          (findCornerPoint [⟨0, 0⟩, ⟨1, 0⟩, ⟨0, 1⟩]
            (effectiveSize [⟨0, 0⟩, ⟨1, 0⟩, ⟨0, 1⟩])))
        (atIdx [⟨0, 0⟩, ⟨1, 0⟩, ⟨0, 1⟩]
          (wrapIndex (findCornerPoint [⟨0, 0⟩, ⟨1, 0⟩, ⟨0, 1⟩]
            (effectiveSize [⟨0, 0⟩, ⟨1, 0⟩, ⟨0, 1⟩]) + 1)
          ((effectiveSize [⟨0, 0⟩, ⟨1, 0⟩, ⟨0, 1⟩]) : Int)))) ∧
    getPolygonOrientation [⟨0, 0⟩, ⟨1, 0⟩, ⟨0, 1⟩] = Orientation.CLOCKWISE :=
  ⟨(c8_orientation_det.1 [⟨0, 0⟩, ⟨1, 0⟩, ⟨0, 1⟩] (by decide!)).1,
   (c8_orientation_det.2 ⟨0, 0⟩ ⟨1, 0⟩ ⟨0, 1⟩).1 (by decide!)⟩

/-- C4 (witness): instantiation at a 2-vertex polygon. -/
theorem c4_degenerate_size_witness :
    getPolygonOrientation [⟨0, 0⟩, ⟨1, 1⟩] = Orientation.INVALID_TOO_SMALL ∧
    (getLongPolygonLines [⟨0, 0⟩, ⟨1, 1⟩] bigRect 7 5 true rectAngle
      rectLength).1 = [] :=
  c4_degenerate_size [⟨0, 0⟩, ⟨1, 1⟩] (by decide!) bigRect 7 5 true rectAngle rectLength

end atools
